import Mathlib

/-!
Verification of the blueprint schema validation and differencing engine
(`src/utils/schema.js` of mac-blueprint) via a shallow embedding of the
relevant JavaScript semantics.

Documents are JSON-like dynamic values (`JVal`).  Property access on
`null`/`undefined` throws in JavaScript, so reads are modelled in
`Except Unit`; all other code is translated as executable functions.
-/

set_option autoImplicit false

namespace MacBlueprint

/-- JavaScript values as they occur in blueprint documents.  Numbers are
modelled as integers (no claim depends on float behaviour); objects are
association lists in property-insertion order. -/
inductive JVal where
  | undefined : JVal
  | null : JVal
  | bool : Bool → JVal
  | num : Int → JVal
  | str : String → JVal
  | arr : List JVal → JVal
  | obj : List (String × JVal) → JVal
deriving Repr

mutual
/-- Decidable structural equality on `JVal` (with `decEqJA`, `decEqJO`):
`decide (a = b)` models JavaScript `===` / SameValueZero on the values
that occur as comparison keys in blueprint documents. -/
def decEqJ : (a b : JVal) → Decidable (a = b)
  | .undefined, .undefined => isTrue rfl
  | .null, .null => isTrue rfl
  | .bool a, .bool b =>
    match decEq a b with
    | isTrue h => isTrue (by rw [h])
    | isFalse h => isFalse (fun hh => h (JVal.bool.inj hh))
  | .num a, .num b =>
    match decEq a b with
    | isTrue h => isTrue (by rw [h])
    | isFalse h => isFalse (fun hh => h (JVal.num.inj hh))
  | .str a, .str b =>
    match decEq a b with
    | isTrue h => isTrue (by rw [h])
    | isFalse h => isFalse (fun hh => h (JVal.str.inj hh))
  | .arr a, .arr b =>
    match decEqJA a b with
    | isTrue h => isTrue (by rw [h])
    | isFalse h => isFalse (fun hh => h (JVal.arr.inj hh))
  | .obj a, .obj b =>
    match decEqJO a b with
    | isTrue h => isTrue (by rw [h])
    | isFalse h => isFalse (fun hh => h (JVal.obj.inj hh))
  | .undefined, .null => isFalse (fun h => JVal.noConfusion h)
  | .undefined, .bool _ => isFalse (fun h => JVal.noConfusion h)
  | .undefined, .num _ => isFalse (fun h => JVal.noConfusion h)
  | .undefined, .str _ => isFalse (fun h => JVal.noConfusion h)
  | .undefined, .arr _ => isFalse (fun h => JVal.noConfusion h)
  | .undefined, .obj _ => isFalse (fun h => JVal.noConfusion h)
  | .null, .undefined => isFalse (fun h => JVal.noConfusion h)
  | .null, .bool _ => isFalse (fun h => JVal.noConfusion h)
  | .null, .num _ => isFalse (fun h => JVal.noConfusion h)
  | .null, .str _ => isFalse (fun h => JVal.noConfusion h)
  | .null, .arr _ => isFalse (fun h => JVal.noConfusion h)
  | .null, .obj _ => isFalse (fun h => JVal.noConfusion h)
  | .bool _, .undefined => isFalse (fun h => JVal.noConfusion h)
  | .bool _, .null => isFalse (fun h => JVal.noConfusion h)
  | .bool _, .num _ => isFalse (fun h => JVal.noConfusion h)
  | .bool _, .str _ => isFalse (fun h => JVal.noConfusion h)
  | .bool _, .arr _ => isFalse (fun h => JVal.noConfusion h)
  | .bool _, .obj _ => isFalse (fun h => JVal.noConfusion h)
  | .num _, .undefined => isFalse (fun h => JVal.noConfusion h)
  | .num _, .null => isFalse (fun h => JVal.noConfusion h)
  | .num _, .bool _ => isFalse (fun h => JVal.noConfusion h)
  | .num _, .str _ => isFalse (fun h => JVal.noConfusion h)
  | .num _, .arr _ => isFalse (fun h => JVal.noConfusion h)
  | .num _, .obj _ => isFalse (fun h => JVal.noConfusion h)
  | .str _, .undefined => isFalse (fun h => JVal.noConfusion h)
  | .str _, .null => isFalse (fun h => JVal.noConfusion h)
  | .str _, .bool _ => isFalse (fun h => JVal.noConfusion h)
  | .str _, .num _ => isFalse (fun h => JVal.noConfusion h)
  | .str _, .arr _ => isFalse (fun h => JVal.noConfusion h)
  | .str _, .obj _ => isFalse (fun h => JVal.noConfusion h)
  | .arr _, .undefined => isFalse (fun h => JVal.noConfusion h)
  | .arr _, .null => isFalse (fun h => JVal.noConfusion h)
  | .arr _, .bool _ => isFalse (fun h => JVal.noConfusion h)
  | .arr _, .num _ => isFalse (fun h => JVal.noConfusion h)
  | .arr _, .str _ => isFalse (fun h => JVal.noConfusion h)
  | .arr _, .obj _ => isFalse (fun h => JVal.noConfusion h)
  | .obj _, .undefined => isFalse (fun h => JVal.noConfusion h)
  | .obj _, .null => isFalse (fun h => JVal.noConfusion h)
  | .obj _, .bool _ => isFalse (fun h => JVal.noConfusion h)
  | .obj _, .num _ => isFalse (fun h => JVal.noConfusion h)
  | .obj _, .str _ => isFalse (fun h => JVal.noConfusion h)
  | .obj _, .arr _ => isFalse (fun h => JVal.noConfusion h)
def decEqJA : (a b : List JVal) → Decidable (a = b)
  | [], [] => isTrue rfl
  | [], _ :: _ => isFalse (fun h => List.noConfusion h)
  | _ :: _, [] => isFalse (fun h => List.noConfusion h)
  | x :: xs, y :: ys =>
    match decEqJ x y with
    | isTrue h1 =>
      match decEqJA xs ys with
      | isTrue h2 => isTrue (by rw [h1, h2])
      | isFalse h2 => isFalse (fun hh => h2 (List.cons.inj hh).2)
    | isFalse h1 => isFalse (fun hh => h1 (List.cons.inj hh).1)
def decEqJO : (a b : List (String × JVal)) → Decidable (a = b)
  | [], [] => isTrue rfl
  | [], _ :: _ => isFalse (fun h => List.noConfusion h)
  | _ :: _, [] => isFalse (fun h => List.noConfusion h)
  | (k, v) :: xs, (l, w) :: ys =>
    match decEq k l with
    | isTrue hk =>
      match decEqJ v w with
      | isTrue hv =>
        match decEqJO xs ys with
        | isTrue ht => isTrue (by rw [hk, hv, ht])
        | isFalse ht => isFalse (fun hh => ht (List.cons.inj hh).2)
      | isFalse hv => isFalse (fun hh => hv (congrArg Prod.snd (List.cons.inj hh).1))
    | isFalse hk => isFalse (fun hh => hk (congrArg Prod.fst (List.cons.inj hh).1))
end

instance : DecidableEq JVal := decEqJ

/-- JavaScript truthiness (`undefined`, `null`, `false`, `0`, `""` are falsy). -/
def truthy : JVal → Bool
  | .undefined => false
  | .null => false
  | .bool b => b
  | .num n => n != 0
  | .str s => s != ""
  | .arr _ => true
  | .obj _ => true

/-- Property read `v[k]`: throws on `null`/`undefined` receivers, yields
`undefined` for absent keys and for non-object receivers (none of the
string/array properties the source reads by name exist on them). -/
def getField : JVal → String → Except Unit JVal
  | .undefined, _ => .error ()
  | .null, _ => .error ()
  | .obj fs, k => .ok ((fs.lookup k).getD .undefined)
  | _, _ => .ok .undefined

/-- Total property read, used where the receiver is known non-nullish
(a truthy guard or an earlier successful read on it precedes the access). -/
def getFieldT : JVal → String → JVal
  | .obj fs, k => (fs.lookup k).getD .undefined
  | _, _ => .undefined

/-- Property write on an association list: update in place, else append
(JavaScript keeps the original insertion position of an existing key). -/
def setObjField : List (String × JVal) → String → JVal → List (String × JVal)
  | [], k, v => [(k, v)]
  | p :: rest, k, v => if p.1 = k then (k, v) :: rest else p :: setObjField rest k v

/-- Property write `v[k] = x`.  On primitives a sloppy-mode write is a
silent no-op; the flows modelled here never write to `null`/`undefined`
(a read on the receiver has always already succeeded). -/
def jsetField : JVal → String → JVal → JVal
  | .obj fs, k, v => .obj (setObjField fs k v)
  | x, _, _ => x

/-- `Array.isArray`. -/
def isArr : JVal → Bool
  | .arr _ => true
  | _ => false

/-- `typeof v === "object"` (arrays and `null` included). -/
def isObjType : JVal → Bool
  | .obj _ => true
  | .arr _ => true
  | .null => true
  | _ => false

/-- Effectful map over a list, written by structural recursion so that
concrete runs reduce definitionally. -/
def mapME {β : Type} (f : JVal → Except Unit β) : List JVal → Except Unit (List β)
  | [] => pure []
  | x :: xs => do
    let y ← f x
    let ys ← mapME f xs
    pure (y :: ys)

/-- Effectful fold over a list, structural for the same reason. -/
def foldME {α β : Type} (f : α → β → Except Unit α) : α → List β → Except Unit α
  | b, [] => pure b
  | b, x :: xs => do
    let b2 ← f b x
    foldME f b2 xs

/-- The module-level `SCHEMA_VERSION` constant. -/
def SCHEMA_VERSION : String := "2.0"

/-- Validation result `{ valid, errors }`. -/
structure VResult where
  valid : Bool
  errors : List String
deriving Repr, DecidableEq

/-- Error message pushed by the cask/formula entry check
(`Invalid ${tag} at index ${idx}: missing 'name' field`). -/
def missingNameMsg (tag : String) (idx : Nat) : String :=
  s!"Invalid {tag} at index {idx}: missing \x27name\x27 field"

/-- The `forEach` over `homebrew.casks` / `homebrew.formulae` entries
(schema.js lines 52-66): reading `.name` throws on a `null`/`undefined`
entry, a falsy `.name` pushes an indexed error, and the walk continues. -/
def checkEntries (tag : String) : Nat → List JVal → Except Unit (List String)
  | _, [] => pure []
  | i, e :: rest => do
    let n ← getField e "name"
    let tl ← checkEntries tag (i + 1) rest
    pure ((if truthy n then [] else [missingNameMsg tag i]) ++ tl)

/-- System-section rules (schema.js lines 22-35). -/
def systemErrors (setup : JVal) : Except Unit (List String) := do
  let sys ← getField setup "system"
  if truthy sys then do
    let h ← getField sys "hostname"
    let m ← getField sys "macosVersion"
    let c ← getField sys "captureDate"
    pure ((if truthy h then [] else ["Missing required field: system.hostname"]) ++
      (if truthy m then [] else ["Missing required field: system.macosVersion"]) ++
      (if truthy c then [] else ["Missing required field: system.captureDate"]))
  else
    pure ["Missing required field: system"]

/-- The `if (Array.isArray(...)) { ...forEach... }` entry checks guarding
the cask/formula walks (schema.js lines 52 and 60). -/
def entriesErrs (tag : String) : JVal → Except Unit (List String)
  | .arr xs => checkEntries tag 0 xs
  | _ => pure []

/-- Homebrew-section rules (schema.js lines 37-67). -/
def homebrewErrors (setup : JVal) : Except Unit (List String) := do
  let hb ← getField setup "homebrew"
  if truthy hb then do
    let taps ← getField hb "taps"
    let casks ← getField hb "casks"
    let formulae ← getField hb "formulae"
    let arrErrs :=
      (if isArr taps then [] else ["Invalid field: homebrew.taps must be an array"]) ++
      (if isArr casks then [] else ["Invalid field: homebrew.casks must be an array"]) ++
      (if isArr formulae then [] else ["Invalid field: homebrew.formulae must be an array"])
    let caskErrs ← entriesErrs "cask" casks
    let formulaErrs ← entriesErrs "formula" formulae
    pure (arrErrs ++ caskErrs ++ formulaErrs)
  else
    pure ["Missing required field: homebrew"]

/-- The `if (setup.f && !Array.isArray(setup.f))` pattern used for
`applications`, `shellConfigs` and `githubRepos`. -/
def optionalArrayError (setup : JVal) (field msg : String) : Except Unit (List String) := do
  let v ← getField setup field
  pure (if truthy v && !(isArr v) then [msg] else [])

/-- The loop body list of recognized package managers. -/
def managers : List String := ["npm", "bun", "dart", "ruby"]

/-- Global-packages rules (schema.js lines 74-82). -/
def globalPackagesErrors (setup : JVal) : Except Unit (List String) := do
  let gp ← getField setup "globalPackages"
  if truthy gp then
    foldME (fun acc m => do
      let v ← getField gp m
      pure (acc ++ (if truthy v && !(isArr v) then
        [s!"Invalid field: globalPackages.{m} must be an array"] else []))) [] managers
  else
    pure []

/-- Git-config rules (schema.js lines 89-97). -/
def gitConfigErrors (setup : JVal) : Except Unit (List String) := do
  let gc ← getField setup "gitConfig"
  if truthy gc then do
    let u ← getField gc "user"
    let s ← getField gc "settings"
    pure ((if truthy u && !(isObjType u) then
        ["Invalid field: gitConfig.user must be an object"] else []) ++
      (if truthy s && !(isArr s) then
        ["Invalid field: gitConfig.settings must be an array"] else []))
  else
    pure []

/-- The rule chain of `validateSetup` after the version backfill
(schema.js lines 22-107): the sections run in order, each appending its
messages, and the result is valid iff the accumulated list is empty. -/
def runChecks (s : JVal) : Except Unit VResult := do
  let e1 ← systemErrors s
  let e2 ← homebrewErrors s
  let e3 ← optionalArrayError s "applications" "Invalid field: applications must be an array"
  let e4 ← globalPackagesErrors s
  let e5 ← optionalArrayError s "shellConfigs" "Invalid field: shellConfigs must be an array"
  let e6 ← gitConfigErrors s
  let e7 ← optionalArrayError s "githubRepos" "Invalid field: githubRepos must be an array"
  let errors := e1 ++ e2 ++ e3 ++ e4 ++ e5 ++ e6 ++ e7
  pure ⟨errors.length == 0, errors⟩

/-- `validateSetup` (schema.js lines 12-108).  The returned `JVal` is the
caller's document after the call: a falsy `version` is backfilled to
`"1.0"` in place before any rule runs (the accompanying `console.warn` is
not modelled).  The `Except` component is the run's outcome: the
`{valid, errors}` result, or a thrown `TypeError`. -/
def validateSetup (setup : JVal) : JVal × Except Unit VResult :=
  match getField setup "version" with
  | .error e => (setup, .error e)
  | .ok v =>
    let s := if truthy v then setup else jsetField setup "version" (.str "1.0")
    (s, runChecks s)

/-- `createEmptySetup` (schema.js lines 114-155), parameterized by the
`new Date().toISOString()` timestamp embedded as `captureDate`. -/
def createEmptySetup (captureDate : String) : JVal :=
  .obj [
    ("version", .str SCHEMA_VERSION),
    ("system", .obj [
      ("hostname", .str "unknown"),
      ("macosVersion", .str "unknown"),
      ("architecture", .str "unknown"),
      ("homebrewVersion", .str "unknown"),
      ("captureDate", .str captureDate)]),
    ("applications", .arr []),
    ("homebrew", .obj [
      ("taps", .arr []),
      ("casks", .arr []),
      ("formulae", .arr [])]),
    ("binaries", .arr []),
    ("homeBin", .arr []),
    ("githubRepos", .arr []),
    ("globalPackages", .obj [
      ("npm", .arr []),
      ("bun", .arr []),
      ("dart", .arr []),
      ("ruby", .arr [])]),
    ("shellConfigs", .arr []),
    ("gitConfig", .obj [
      ("user", .obj []),
      ("settings", .arr [])]),
    ("versionManagers", .obj [
      ("nvm", .obj [("installed", .bool false), ("versions", .arr [])]),
      ("pyenv", .obj [("installed", .bool false), ("versions", .arr [])]),
      ("rbenv", .obj [("installed", .bool false), ("versions", .arr [])])]),
    ("menubarConfig", .obj [
      ("loginItems", .arr []),
      ("runningApps", .arr []),
      ("launchAgents", .arr [])])]

/-- The text before the first `.` of a string: the `[major]` component of
`s.split('.')` destructured by `isCompatibleVersion`. -/
def majorOf (s : String) : String :=
  String.mk (s.toList.takeWhile (fun c => c != '.'))

/-- `isCompatibleVersion` (schema.js lines 162-173).  A truthy non-string
`version` has no `.split` method, so the call throws. -/
def isCompatibleVersion (setup : JVal) : Except Unit Bool := do
  let v ← getField setup "version"
  if !(truthy v) then
    pure true
  else
    match v with
    | .str s => pure (majorOf s == majorOf SCHEMA_VERSION)
    | _ => .error ()

/-- One diff-report entry for an updated application:
`{name, oldVersion, newVersion}`. -/
structure UpdEntry where
  name : JVal
  oldVersion : JVal
  newVersion : JVal
deriving Repr, DecidableEq

/-- The `diff.applications` sub-report. -/
structure AppsDiff where
  added : List JVal
  removed : List JVal
  updated : List UpdEntry
deriving Repr, DecidableEq

/-- The `diff.globalPackages.<manager>` sub-report. -/
structure PkgPair where
  added : List JVal
  removed : List JVal
deriving Repr, DecidableEq

/-- The `diff.globalPackages` sub-report. -/
structure GPDiff where
  npm : PkgPair
  bun : PkgPair
  dart : PkgPair
  ruby : PkgPair
deriving Repr, DecidableEq

/-- The diff report.  `homebrew` stays a dynamic object because
`comparePackages` indexes it by a runtime category string
(`diff.homebrew[category]`), exactly as the source does. -/
structure DiffReport where
  applications : AppsDiff
  homebrew : JVal
  globalPackages : GPDiff
deriving Repr, DecidableEq

/-- The initial `diff.homebrew` object literal (schema.js lines 188-192). -/
def hbInit : JVal :=
  .obj [
    ("formulae", .obj [("added", .arr []), ("removed", .arr [])]),
    ("casks", .obj [("added", .arr []), ("removed", .arr [])]),
    ("taps", .obj [("added", .arr []), ("removed", .arr [])])]

/-- The initial (and, see the theorems, final) `diff.globalPackages`
value (schema.js lines 193-198). -/
def gpInit : GPDiff :=
  ⟨⟨[], []⟩, ⟨[], []⟩, ⟨[], []⟩, ⟨[], []⟩⟩

/-- `Map.prototype.set` on an insertion-ordered association list: an
existing key keeps its original position and gets the new value. -/
def mapSet : List (JVal × JVal) → JVal → JVal → List (JVal × JVal)
  | [], k, v => [(k, v)]
  | p :: rest, k, v => if p.1 = k then (k, v) :: rest else p :: mapSet rest k v

/-- `Map.prototype.has`. -/
def hasKey (m : List (JVal × JVal)) (k : JVal) : Bool :=
  m.any (fun p => decide (p.1 = k))

/-- `Map.prototype.get` (used by the source only under a `has` guard). -/
def mapGet (m : List (JVal × JVal)) (k : JVal) : Option JVal :=
  (m.find? (fun p => decide (p.1 = k))).map (fun p => p.2)

/-- `Set.prototype.has` on the name sets built by `comparePackages`. -/
def setHas (xs : List JVal) (v : JVal) : Bool :=
  xs.any (fun x => decide (x = v))

/-- `v.map(...)` / iteration over a JavaScript value: anything but an
array lacks the needed method and throws. -/
def asArray : JVal → Except Unit (List JVal)
  | .arr xs => pure xs
  | _ => .error ()

/-- `new Map(xs.map(a => [a.name, a]))` (schema.js lines 202-203): the
`.name` reads happen in order (throwing on nullish entries), then the
`Map` constructor inserts the pairs in order. -/
def buildAppMap (xs : List JVal) : Except Unit (List (JVal × JVal)) := do
  let pairs ← mapME (fun a => do
    let nm ← getField a "name"
    pure (nm, a)) xs
  pure (pairs.foldl (fun m p => mapSet m p.1 p.2) [])

/-- Entries of the new map whose key is absent from the old map, i.e. the
pushes into `diff.applications.added`.  Map values are never nullish (their
`.name` read succeeded), so the later property reads are total. -/
def addedOf (oldM newM : List (JVal × JVal)) : List JVal :=
  (newM.filter (fun p => !(hasKey oldM p.1))).map (fun p => p.2)

/-- The pushes into `diff.applications.updated`: keys present in both maps
whose `version` properties are `!==` (schema.js lines 208-214). -/
def updatedOf (oldM newM : List (JVal × JVal)) : List UpdEntry :=
  newM.filterMap (fun p =>
    match mapGet oldM p.1 with
    | some oldApp =>
      if getFieldT oldApp "version" = getFieldT p.2 "version" then none
      else some ⟨p.1, getFieldT oldApp "version", getFieldT p.2 "version"⟩
    | none => none)

/-- The pushes into `diff.applications.removed` (schema.js lines 217-221). -/
def removedOf (oldM newM : List (JVal × JVal)) : List JVal :=
  (oldM.filter (fun p => !(hasKey newM p.1))).map (fun p => p.2)

/-- The applications comparison of `diffSetups` (schema.js lines 201-221). -/
def diffApplications (oldSetup newSetup : JVal) : Except Unit AppsDiff := do
  let oa ← getField oldSetup "applications"
  let oldArr ← asArray oa
  let oldM ← buildAppMap oldArr
  let na ← getField newSetup "applications"
  let newArr ← asArray na
  let newM ← buildAppMap newArr
  pure ⟨addedOf oldM newM, removedOf oldM newM, updatedOf oldM newM⟩

/-- `pkg.name || pkg`: the normalized package name used for the sets and
membership tests in `comparePackages`. -/
def pkgName (p : JVal) : Except Unit JVal := do
  let n ← getField p "name"
  pure (if truthy n then n else p)

/-- `typeof pkg === 'string' ? pkg : pkg.name`: the value pushed into the
report by `comparePackages`. -/
def pushVal (p : JVal) : Except Unit JVal :=
  match p with
  | .str s => pure (.str s)
  | _ => getField p "name"

/-- `diff.homebrew[category].added.push(v)` (resp. `removed`): reading
`.added` throws when `diff.homebrew` has no `category` key — which is
exactly what happens for the global-package managers. -/
def pushInto (hb : JVal) (category field : String) (v : JVal) : Except Unit JVal := do
  let cat ← getField hb category
  let fld ← getField cat field
  match fld with
  | .arr xs => pure (jsetField hb category (jsetField cat field (.arr (xs ++ [v]))))
  | _ => .error ()

/-- `comparePackages` (schema.js lines 224-241), acting on the
`diff.homebrew` object it closes over and returning its new value. -/
def comparePackages (hb : JVal) (oldPkgsV newPkgsV : JVal) (category : String) :
    Except Unit JVal := do
  let oldPkgs ← asArray oldPkgsV
  let newPkgs ← asArray newPkgsV
  let oldNames ← mapME pkgName oldPkgs
  let newNames ← mapME pkgName newPkgs
  let hb1 ← foldME (fun h pkg => do
    let name ← pkgName pkg
    if setHas oldNames name then pure h
    else do
      let v ← pushVal pkg
      pushInto h category "added" v) hb newPkgs
  foldME (fun h pkg => do
    let name ← pkgName pkg
    if setHas newNames name then pure h
    else do
      let v ← pushVal pkg
      pushInto h category "removed" v) hb1 oldPkgs

/-- The three Homebrew `comparePackages` calls (schema.js lines 243-245).
Property reads are pure, so the repeated `oldSetup.homebrew` reads are
bound once; the throw order of the first call is preserved. -/
def diffHomebrew (oldSetup newSetup : JVal) : Except Unit JVal := do
  let oh ← getField oldSetup "homebrew"
  let ofor ← getField oh "formulae"
  let nh ← getField newSetup "homebrew"
  let nfor ← getField nh "formulae"
  let hb1 ← comparePackages hbInit ofor nfor "formulae"
  let ocas ← getField oh "casks"
  let ncas ← getField nh "casks"
  let hb2 ← comparePackages hb1 ocas ncas "casks"
  let otap ← getField oh "taps"
  let ntap ← getField nh "taps"
  comparePackages hb2 otap ntap "taps"

/-- The global-packages loop (schema.js lines 248-252): each manager's
lists are read (`|| []` defaults a falsy entry) and compared with
`category := manager`, which indexes `diff.homebrew` — the report's
`globalPackages` field is never touched. -/
def diffGlobalPackages (oldSetup newSetup : JVal) (hb : JVal) : Except Unit JVal :=
  foldME (fun h manager => do
    let og ← getField oldSetup "globalPackages"
    let op ← getField og manager
    let ng ← getField newSetup "globalPackages"
    let np ← getField ng manager
    comparePackages h (if truthy op then op else .arr [])
      (if truthy np then np else .arr []) manager) hb managers

/-- `diffSetups` (schema.js lines 181-255). -/
def diffSetups (oldSetup newSetup : JVal) : Except Unit DiffReport := do
  let apps ← diffApplications oldSetup newSetup
  let hb ← diffHomebrew oldSetup newSetup
  let hb2 ← diffGlobalPackages oldSetup newSetup hb
  pure ⟨apps, hb2, gpInit⟩

/-- The caller-observable effect of a `diffSetups` call on the argument
documents: the source contains no assignment or mutating method call on
`oldSetup`/`newSetup` (all pushes target the freshly created `diff`
object), so the post-call documents are the arguments themselves. -/
def diffSetupsCall (oldSetup newSetup : JVal) :
    (JVal × JVal) × Except Unit DiffReport :=
  ((oldSetup, newSetup), diffSetups oldSetup newSetup)

/-- Cask/formula arrays whose entries can be walked without a throw: no
`null`/`undefined` entry (reading `.name` on those throws).  Non-arrays are
never walked. -/
def entriesClean : JVal → Prop
  | .arr xs => ∀ e ∈ xs, e ≠ .null ∧ e ≠ .undefined
  | _ => True

/-- A sample `toISOString()` timestamp for concrete documents. -/
def tsSample : String := "2024-01-01T00:00:00.000Z"

/-- A minimal system section for concrete documents. -/
def sysSample : JVal :=
  .obj [("hostname", .str "mac"), ("macosVersion", .str "14.0"),
        ("captureDate", .str tsSample)]

/-- Valid document with empty global-package lists. -/
def gpDocOld : JVal := createEmptySetup tsSample

/-- Valid document equal to `gpDocOld` except that `globalPackages.npm`
contains one package. -/
def gpDocNew : JVal :=
  jsetField (createEmptySetup tsSample) "globalPackages"
    (.obj [("npm", .arr [.str "typescript"]), ("bun", .arr []),
           ("dart", .arr []), ("ruby", .arr [])])

/-- Otherwise-conforming document whose single cask is a bare name string. -/
def bareCaskDoc : JVal :=
  .obj [("version", .str "2.0"),
        ("system", sysSample),
        ("homebrew", .obj [("taps", .arr []), ("casks", .arr [.str "git"]),
                           ("formulae", .arr [])])]

/-- The same document with the cask written as a `{name}` object. -/
def objCaskDoc : JVal :=
  .obj [("version", .str "2.0"),
        ("system", sysSample),
        ("homebrew", .obj [("taps", .arr []),
                           ("casks", .arr [.obj [("name", .str "git")]]),
                           ("formulae", .arr [])])]

/-- Otherwise-conforming document with a `null` cask entry. -/
def nullCaskDoc : JVal :=
  .obj [("version", .str "2.0"),
        ("system", sysSample),
        ("homebrew", .obj [("taps", .arr []), ("casks", .arr [.null]),
                           ("formulae", .arr [])])]

/-- Valid document whose only application is Xcode 14.0. -/
def appsDocOld : JVal :=
  jsetField (createEmptySetup tsSample) "applications"
    (.arr [.obj [("name", .str "Xcode.app"), ("version", .str "14.0")]])

/-- Valid document whose only application is Xcode 15.0. -/
def appsDocNew : JVal :=
  jsetField (createEmptySetup tsSample) "applications"
    (.arr [.obj [("name", .str "Xcode.app"), ("version", .str "15.0")]])

/-- The report `diffSetups appsDocOld appsDocNew` produces. -/
def xcodeReport : DiffReport :=
  ⟨⟨[], [], [⟨.str "Xcode.app", .str "14.0", .str "15.0"⟩]⟩, hbInit, gpInit⟩

/-- The report `diffSetups` produces on two equal valid documents. -/
def emptyReport : DiffReport := ⟨⟨[], [], []⟩, hbInit, gpInit⟩

/-- `appsDocOld` with one dart global package added as well. -/
def mixedDocNew : JVal :=
  jsetField appsDocNew "globalPackages"
    (.obj [("npm", .arr []), ("bun", .arr []),
           ("dart", .arr [.str "melos"]), ("ruby", .arr [])])

/-- Valid document that omits both `applications` and `globalPackages`. -/
def minimalDoc : JVal :=
  .obj [("version", .str "2.0"),
        ("system", sysSample),
        ("homebrew", .obj [("taps", .arr []), ("casks", .arr []),
                           ("formulae", .arr [])])]

example : ([("a", JVal.null)].lookup "a") = some JVal.null := rfl
example : getField (.obj [("a", .num 3)]) "a" = .ok (.num 3) := rfl
example : getField (.obj [("a", .num 3)]) "b" = .ok .undefined := rfl
example : truthy (.str "x") = true := by decide
example : (JVal.obj [("a", .num 3)]) = (JVal.obj [("a", .num 3)]) := by decide
example : majorOf "2.1" = "2" := rfl
example : isCompatibleVersion (.obj [("version", .str "2.1")]) = .ok true := rfl
example : isCompatibleVersion (.obj [("version", .str "3.0")]) = .ok false := rfl
example : isCompatibleVersion (.obj []) = .ok true := rfl
example : validateSetup (createEmptySetup "T") = (createEmptySetup "T", .ok ⟨true, []⟩) := rfl
example : (validateSetup (.obj [])).2 =
    .ok ⟨false, ["Missing required field: system", "Missing required field: homebrew"]⟩ := rfl
example : (validateSetup (.obj [("system", .obj [("hostname", .str "h"),
    ("macosVersion", .str "14"), ("captureDate", .str "d")]),
    ("homebrew", .obj [("taps", .arr []), ("casks", .arr [.null]), ("formulae", .arr [])])])).2 =
    .error () := rfl
example : (validateSetup (.obj [("version", .str "2.0"), ("system", .obj [("hostname", .str "h"),
    ("macosVersion", .str "14"), ("captureDate", .str "d")]),
    ("homebrew", .obj [("taps", .arr []), ("casks", .arr [.str "git"]), ("formulae", .arr [])])])).2 =
    .ok ⟨false, [missingNameMsg "cask" 0]⟩ := rfl
example : diffSetups (createEmptySetup "T") (createEmptySetup "T") =
    .ok ⟨⟨[], [], []⟩, hbInit, gpInit⟩ := rfl
example : diffSetups (createEmptySetup "T")
    (jsetField (createEmptySetup "T") "globalPackages"
      (.obj [("npm", .arr [.str "typescript"]), ("bun", .arr []),
             ("dart", .arr []), ("ruby", .arr [])])) = .error () := rfl
example : diffSetups (.obj []) (.obj []) = .error () := rfl
example : diffSetups
    (jsetField (createEmptySetup "T") "applications"
      (.arr [.obj [("name", .str "Xcode.app"), ("version", .str "14.0")]]))
    (jsetField (createEmptySetup "T") "applications"
      (.arr [.obj [("name", .str "Xcode.app"), ("version", .str "15.0")]])) =
    .ok ⟨⟨[], [], [⟨.str "Xcode.app", .str "14.0", .str "15.0"⟩]⟩, hbInit, gpInit⟩ := rfl
example : diffSetups
    (jsetField (createEmptySetup "T") "homebrew"
      (.obj [("taps", .arr []), ("casks", .arr [.obj [("name", .str "kitty")]]),
             ("formulae", .arr [.str "jq"])]))
    (createEmptySetup "T") =
    .ok ⟨⟨[], [], []⟩,
      .obj [
        ("formulae", .obj [("added", .arr []), ("removed", .arr [.str "jq"])]),
        ("casks", .obj [("added", .arr []), ("removed", .arr [.str "kitty"])]),
        ("taps", .obj [("added", .arr []), ("removed", .arr [])])],
      gpInit⟩ := rfl

example : (validateSetup minimalDoc).2 = .ok ⟨true, []⟩ := rfl
example : diffSetups minimalDoc minimalDoc = .error () := rfl
example : (validateSetup gpDocNew).2 = .ok ⟨true, []⟩ := rfl
example : diffSetups appsDocOld appsDocNew = .ok xcodeReport := rfl
example : diffSetups appsDocOld mixedDocNew = .error () := rfl
example : (validateSetup mixedDocNew).2 = .ok ⟨true, []⟩ := rfl

theorem pure_eq_ok {α : Type} (a : α) : (pure a : Except Unit α) = .ok a := rfl

theorem ok_bind {α β : Type} (a : α) (f : α → Except Unit β) :
    (Except.ok a >>= f) = f a := rfl

theorem err_bind {α β : Type} (f : α → Except Unit β) :
    ((Except.error () : Except Unit α) >>= f) = .error () := rfl

theorem bind_ok_inv {α β : Type} {x : Except Unit α} {f : α → Except Unit β} {b : β}
    (h : x >>= f = .ok b) : ∃ a, x = .ok a ∧ f a = .ok b := by
  cases x with
  | ok a => exact ⟨a, rfl, h⟩
  | error e => cases e; rw [err_bind] at h; exact absurd h (by simp)

theorem bind_err_all {α β : Type} (x : Except Unit α) (f : α → Except Unit β)
    (h : ∀ a, f a = .error ()) : (x >>= f) = .error () := by
  cases x with
  | ok a => rw [ok_bind]; exact h a
  | error e => cases e; rfl

theorem getField_obj (fs : List (String × JVal)) (k : String) :
    getField (.obj fs) k = .ok ((fs.lookup k).getD .undefined) := rfl

theorem getField_of_truthy {v : JVal} (h : truthy v = true) (k : String) :
    getField v k = .ok (getFieldT v k) := by
  cases v <;> simp_all [truthy, getField, getFieldT]

theorem getField_of_nonnullish {v : JVal} (h1 : v ≠ .null) (h2 : v ≠ .undefined) (k : String) :
    getField v k = .ok (getFieldT v k) := by
  cases v <;> simp_all [getField, getFieldT]

theorem truthy_getFieldT_nonnullish {e : JVal} {k : String}
    (h : truthy (getFieldT e k) = true) : e ≠ .null ∧ e ≠ .undefined := by
  cases e <;> simp_all [getFieldT, truthy]

theorem lookup_setObjField_self (fs : List (String × JVal)) (k : String) (v : JVal) :
    (setObjField fs k v).lookup k = some v := by
  induction fs with
  | nil => simp [setObjField, List.lookup]
  | cons p rest ih =>
    by_cases h : p.1 = k
    · simp [setObjField, h, List.lookup]
    · have hb : (k == p.1) = false := beq_eq_false_iff_ne.mpr (Ne.symm h)
      simp [setObjField, h, List.lookup, hb, ih]

theorem lookup_setObjField_ne (fs : List (String × JVal)) (k : String) (v : JVal)
    {k2 : String} (h : k2 ≠ k) : (setObjField fs k v).lookup k2 = fs.lookup k2 := by
  induction fs with
  | nil =>
    have hb : (k2 == k) = false := beq_eq_false_iff_ne.mpr h
    simp [setObjField, List.lookup, hb]
  | cons p rest ih =>
    by_cases hp : p.1 = k
    · subst hp
      have hb : (k2 == p.1) = false := beq_eq_false_iff_ne.mpr h
      simp [setObjField, List.lookup, hb]
    · simp [setObjField, hp, List.lookup, ih]

theorem getFieldT_jset_self (fs : List (String × JVal)) (k : String) (v : JVal) :
    getFieldT (jsetField (.obj fs) k v) k = v := by
  simp [jsetField, getFieldT, lookup_setObjField_self]

theorem getFieldT_jset_ne (fs : List (String × JVal)) (k : String) (v : JVal)
    {k2 : String} (h : k2 ≠ k) :
    getFieldT (jsetField (.obj fs) k v) k2 = getFieldT (.obj fs) k2 := by
  simp [jsetField, getFieldT, lookup_setObjField_ne fs k v h]

theorem getFieldT_obj (fs : List (String × JVal)) (k : String) :
    getFieldT (.obj fs) k = (fs.lookup k).getD .undefined := rfl

theorem checkEntries_ok (tag : String) {xs : List JVal}
    (h : ∀ e ∈ xs, e ≠ .null ∧ e ≠ .undefined) :
    ∀ i, ∃ es, checkEntries tag i xs = .ok es := by
  induction xs with
  | nil => exact fun i => ⟨[], rfl⟩
  | cons e rest ih =>
    intro i
    obtain ⟨h1, h2⟩ := h e (by simp)
    obtain ⟨es, hes⟩ := ih (fun x hx => h x (by simp [hx])) (i + 1)
    refine ⟨(if truthy (getFieldT e "name") then [] else [missingNameMsg tag i]) ++ es, ?_⟩
    simp [checkEntries, getField_of_nonnullish h1 h2, ok_bind, hes, pure_eq_ok]

theorem entriesErrs_ok (tag : String) {v : JVal} (h : entriesClean v) :
    ∃ es, entriesErrs tag v = .ok es := by
  cases v with
  | arr xs => exact checkEntries_ok tag (by simpa [entriesClean] using h) 0
  | undefined => exact ⟨[], rfl⟩
  | null => exact ⟨[], rfl⟩
  | bool b => exact ⟨[], rfl⟩
  | num n => exact ⟨[], rfl⟩
  | str s => exact ⟨[], rfl⟩
  | obj fs => exact ⟨[], rfl⟩

theorem systemErrors_ok (fs : List (String × JVal)) :
    ∃ es, systemErrors (.obj fs) = .ok es := by
  unfold systemErrors
  rw [getField_obj, ok_bind]
  by_cases h : truthy ((fs.lookup "system").getD .undefined) = true
  · rw [if_pos h]
    simp only [getField_of_truthy h, ok_bind, pure_eq_ok]
    exact ⟨_, rfl⟩
  · rw [if_neg h]
    exact ⟨_, rfl⟩

theorem homebrewErrors_ok (fs : List (String × JVal))
    (hc : entriesClean (getFieldT (getFieldT (.obj fs) "homebrew") "casks"))
    (hf : entriesClean (getFieldT (getFieldT (.obj fs) "homebrew") "formulae")) :
    ∃ es, homebrewErrors (.obj fs) = .ok es := by
  unfold homebrewErrors
  rw [getField_obj, ok_bind]
  rw [show ((fs.lookup "homebrew").getD .undefined) = getFieldT (.obj fs) "homebrew" from rfl]
  by_cases h : truthy (getFieldT (.obj fs) "homebrew") = true
  · rw [if_pos h]
    obtain ⟨cs, hcs⟩ := entriesErrs_ok "cask" hc
    obtain ⟨fms, hfms⟩ := entriesErrs_ok "formula" hf
    simp only [getField_of_truthy h, ok_bind, hcs, hfms, pure_eq_ok]
    exact ⟨_, rfl⟩
  · rw [if_neg h]
    exact ⟨_, rfl⟩

theorem optionalArrayError_ok (fs : List (String × JVal)) (field msg : String) :
    ∃ es, optionalArrayError (.obj fs) field msg = .ok es := by
  unfold optionalArrayError
  rw [getField_obj, ok_bind]
  exact ⟨_, rfl⟩

theorem globalPackagesErrors_ok (fs : List (String × JVal)) :
    ∃ es, globalPackagesErrors (.obj fs) = .ok es := by
  unfold globalPackagesErrors
  rw [getField_obj, ok_bind]
  by_cases h : truthy ((fs.lookup "globalPackages").getD .undefined) = true
  · rw [if_pos h]
    simp only [managers, foldME, getField_of_truthy h, ok_bind, pure_eq_ok]
    exact ⟨_, rfl⟩
  · rw [if_neg h]
    exact ⟨_, rfl⟩

theorem gitConfigErrors_ok (fs : List (String × JVal)) :
    ∃ es, gitConfigErrors (.obj fs) = .ok es := by
  unfold gitConfigErrors
  rw [getField_obj, ok_bind]
  by_cases h : truthy ((fs.lookup "gitConfig").getD .undefined) = true
  · rw [if_pos h]
    simp only [getField_of_truthy h, ok_bind, pure_eq_ok]
    exact ⟨_, rfl⟩
  · rw [if_neg h]
    exact ⟨_, rfl⟩

theorem validateSetup_obj (fs : List (String × JVal)) :
    validateSetup (.obj fs) =
      if truthy ((fs.lookup "version").getD .undefined) then
        ((.obj fs), runChecks (.obj fs))
      else
        (jsetField (.obj fs) "version" (.str "1.0"),
         runChecks (jsetField (.obj fs) "version" (.str "1.0"))) := by
  by_cases h : truthy ((fs.lookup "version").getD .undefined) = true
  · simp [validateSetup, getField, h]
  · simp [validateSetup, getField, h]

theorem validateSetup_post (fs : List (String × JVal)) :
    ∃ gs, (validateSetup (.obj fs)).1 = .obj gs ∧
      getFieldT (.obj gs) "homebrew" = getFieldT (.obj fs) "homebrew" ∧
      (validateSetup (.obj fs)).2 = runChecks (.obj gs) := by
  by_cases h : truthy ((fs.lookup "version").getD .undefined) = true
  · exact ⟨fs, by simp [validateSetup_obj, h]⟩
  · have hb : truthy ((fs.lookup "version").getD .undefined) = false := by
      revert h; cases truthy ((fs.lookup "version").getD .undefined) <;> simp
    refine ⟨setObjField fs "version" (.str "1.0"), ?_, ?_, ?_⟩
    · simp [validateSetup_obj, hb, jsetField]
    · rw [show JVal.obj (setObjField fs "version" (.str "1.0")) =
          jsetField (.obj fs) "version" (.str "1.0") from rfl]
      exact getFieldT_jset_ne fs _ _ (by decide)
    · simp [validateSetup_obj, hb, jsetField]

theorem runChecks_ok (gs : List (String × JVal))
    (hc : entriesClean (getFieldT (getFieldT (.obj gs) "homebrew") "casks"))
    (hf : entriesClean (getFieldT (getFieldT (.obj gs) "homebrew") "formulae")) :
    ∃ e1 e2 e3 e4 e5 e6 e7,
      systemErrors (.obj gs) = .ok e1 ∧
      homebrewErrors (.obj gs) = .ok e2 ∧
      optionalArrayError (.obj gs) "applications"
        "Invalid field: applications must be an array" = .ok e3 ∧
      globalPackagesErrors (.obj gs) = .ok e4 ∧
      optionalArrayError (.obj gs) "shellConfigs"
        "Invalid field: shellConfigs must be an array" = .ok e5 ∧
      gitConfigErrors (.obj gs) = .ok e6 ∧
      optionalArrayError (.obj gs) "githubRepos"
        "Invalid field: githubRepos must be an array" = .ok e7 ∧
      runChecks (.obj gs) =
        .ok ⟨(e1 ++ e2 ++ e3 ++ e4 ++ e5 ++ e6 ++ e7).length == 0,
             e1 ++ e2 ++ e3 ++ e4 ++ e5 ++ e6 ++ e7⟩ := by
  obtain ⟨e1, h1⟩ := systemErrors_ok gs
  obtain ⟨e2, h2⟩ := homebrewErrors_ok gs hc hf
  obtain ⟨e3, h3⟩ := optionalArrayError_ok gs "applications"
    "Invalid field: applications must be an array"
  obtain ⟨e4, h4⟩ := globalPackagesErrors_ok gs
  obtain ⟨e5, h5⟩ := optionalArrayError_ok gs "shellConfigs"
    "Invalid field: shellConfigs must be an array"
  obtain ⟨e6, h6⟩ := gitConfigErrors_ok gs
  obtain ⟨e7, h7⟩ := optionalArrayError_ok gs "githubRepos"
    "Invalid field: githubRepos must be an array"
  exact ⟨e1, e2, e3, e4, e5, e6, e7, h1, h2, h3, h4, h5, h6, h7,
    by simp only [runChecks, h1, h2, h3, h4, h5, h6, h7, ok_bind, pure_eq_ok]⟩

/-- C3: a document lacking `version` is backfilled in place to
`version = "1.0"`; every other field is untouched; and validating the
backfilled document again yields the same verdict with no further
mutation, so the backfill contributes no error entry. -/
theorem validate_version_backfill (fs : List (String × JVal))
    (h : fs.lookup "version" = none) :
    (validateSetup (.obj fs)).1 = jsetField (.obj fs) "version" (.str "1.0") ∧
    getFieldT ((validateSetup (.obj fs)).1) "version" = .str "1.0" ∧
    (∀ k, k ≠ "version" →
      getFieldT ((validateSetup (.obj fs)).1) k = getFieldT (.obj fs) k) ∧
    validateSetup ((validateSetup (.obj fs)).1) =
      ((validateSetup (.obj fs)).1, (validateSetup (.obj fs)).2) := by
  have hv : truthy ((fs.lookup "version").getD .undefined) = false := by rw [h]; rfl
  have h1 : validateSetup (.obj fs) =
      (jsetField (.obj fs) "version" (.str "1.0"),
       runChecks (jsetField (.obj fs) "version" (.str "1.0"))) := by
    rw [validateSetup_obj, hv]
    simp
  refine ⟨by rw [h1], ?_, ?_, ?_⟩
  · rw [h1]
    exact getFieldT_jset_self fs _ _
  · intro k hk
    rw [h1]
    exact getFieldT_jset_ne fs _ _ hk
  · rw [h1]
    have h2 : jsetField (.obj fs) "version" (.str "1.0") =
        .obj (setObjField fs "version" (.str "1.0")) := rfl
    rw [h2, validateSetup_obj]
    have h3 : ((setObjField fs "version" (.str "1.0")).lookup "version").getD .undefined =
        .str "1.0" := by
      rw [lookup_setObjField_self]
      rfl
    rw [h3]
    simp [truthy]

/-- C3 witness: the empty document gets exactly the version backfill. -/
theorem validate_version_backfill_inst :
    List.lookup "version" ([] : List (String × JVal)) = none ∧
    (validateSetup (.obj [])).1 = jsetField (.obj []) "version" (.str "1.0") :=
  ⟨rfl, (validate_version_backfill [] rfl).1⟩

/-- C5 (amended): provided no cask/formula array entry is `null` or
`undefined` (reading `.name` on those throws a TypeError), `validateSetup`
returns normally; its result is valid iff the error list is empty; and the
list is the in-order concatenation of every section's messages, so each
failed rule appends its message and checking continues. -/
theorem validate_accumulates_all (fs : List (String × JVal))
    (hc : entriesClean (getFieldT (getFieldT (.obj fs) "homebrew") "casks"))
    (hf : entriesClean (getFieldT (getFieldT (.obj fs) "homebrew") "formulae")) :
    (validateSetup (.obj fs)).2 ≠ .error () ∧
    (∀ r, (validateSetup (.obj fs)).2 = .ok r → (r.valid = true ↔ r.errors = [])) ∧
    (∃ e1 e2 e3 e4 e5 e6 e7,
      systemErrors ((validateSetup (.obj fs)).1) = .ok e1 ∧
      homebrewErrors ((validateSetup (.obj fs)).1) = .ok e2 ∧
      optionalArrayError ((validateSetup (.obj fs)).1) "applications"
        "Invalid field: applications must be an array" = .ok e3 ∧
      globalPackagesErrors ((validateSetup (.obj fs)).1) = .ok e4 ∧
      optionalArrayError ((validateSetup (.obj fs)).1) "shellConfigs"
        "Invalid field: shellConfigs must be an array" = .ok e5 ∧
      gitConfigErrors ((validateSetup (.obj fs)).1) = .ok e6 ∧
      optionalArrayError ((validateSetup (.obj fs)).1) "githubRepos"
        "Invalid field: githubRepos must be an array" = .ok e7 ∧
      (validateSetup (.obj fs)).2 =
        .ok ⟨(e1 ++ e2 ++ e3 ++ e4 ++ e5 ++ e6 ++ e7).length == 0,
             e1 ++ e2 ++ e3 ++ e4 ++ e5 ++ e6 ++ e7⟩) := by
  obtain ⟨gs, hpost, hhb, hsnd⟩ := validateSetup_post fs
  have hc2 : entriesClean (getFieldT (getFieldT (.obj gs) "homebrew") "casks") := by
    rw [hhb]; exact hc
  have hf2 : entriesClean (getFieldT (getFieldT (.obj gs) "homebrew") "formulae") := by
    rw [hhb]; exact hf
  obtain ⟨e1, e2, e3, e4, e5, e6, e7, h1, h2, h3, h4, h5, h6, h7, hrun⟩ :=
    runChecks_ok gs hc2 hf2
  rw [hpost, hsnd]
  refine ⟨by rw [hrun]; simp, ?_, e1, e2, e3, e4, e5, e6, e7, h1, h2, h3, h4, h5, h6, h7, hrun⟩
  intro r hr
  rw [hrun] at hr
  injection hr with hr2
  subst hr2
  simp [beq_iff_eq, List.length_eq_zero]

/-- C5 counterexample: an otherwise-conforming document with a `null`
cask entry makes `validateSetup` throw — reading `.name` on `null` is a
TypeError — so the Validator can abort instead of accumulating. -/
theorem nullCask_throws : (validateSetup nullCaskDoc).2 = .error () := rfl

/-- C5 witness: the empty document throws nothing, violates two rules and
receives both messages. -/
theorem validate_accumulates_all_inst :
    (validateSetup (.obj [])).2 ≠ .error () ∧
    (validateSetup (.obj [])).2 =
      .ok ⟨false, ["Missing required field: system", "Missing required field: homebrew"]⟩ :=
  ⟨(validate_accumulates_all [] (by trivial) (by trivial)).1, rfl⟩

/-- C2 counterexample: the otherwise-conforming document whose single
cask is the bare string "git" is reported invalid, with the indexed
missing-name error for exactly that entry. -/
theorem bareCask_rejected :
    (validateSetup bareCaskDoc).2 = .ok ⟨false, [missingNameMsg "cask" 0]⟩ := rfl

/-- C2 (amended): only the object shape of a package reference passes the
cask/formula entry check — an entry with a truthy `name` property
contributes no error, while a bare name string entry (whose `.name` is
`undefined` in JavaScript) draws the indexed missing-name error; the
object-shaped variant of the counterexample document is fully valid. -/
theorem caskEntry_shapes :
    (∀ tag i (xs : List JVal), (∀ e ∈ xs, truthy (getFieldT e "name") = true) →
      checkEntries tag i xs = .ok []) ∧
    (∀ tag i s (rest : List JVal) es, checkEntries tag (i + 1) rest = .ok es →
      checkEntries tag i (.str s :: rest) = .ok (missingNameMsg tag i :: es)) ∧
    (validateSetup objCaskDoc).2 = .ok ⟨true, []⟩ := by
  refine ⟨?_, ?_, rfl⟩
  · intro tag i xs h
    induction xs generalizing i with
    | nil => rfl
    | cons e rest ih =>
      have he := h e (by simp)
      obtain ⟨h1, h2⟩ := truthy_getFieldT_nonnullish he
      simp [checkEntries, getField_of_nonnullish h1 h2, ok_bind, pure_eq_ok, he,
        ih (i + 1) (fun x hx => h x (by simp [hx]))]
  · intro tag i s rest es hes
    simp [checkEntries, getField, ok_bind, pure_eq_ok, hes, truthy]

/-- C2 witness: a `{name: "git"}` cask entry produces no error. -/
theorem caskEntry_shapes_inst :
    checkEntries "cask" 0 [.obj [("name", .str "git")]] = .ok [] :=
  caskEntry_shapes.1 "cask" 0 _ (by
    intro e he
    simp only [List.mem_singleton] at he
    subst he
    decide)

/-- C4 counterexample: a document whose `version` is the empty string is
deemed compatible (the empty string is falsy, so the legacy branch fires),
although its major component differs from that of the current schema
version — the claimed iff fails for this version string. -/
theorem emptyVersion_compatible :
    isCompatibleVersion (.obj [("version", .str "")]) = .ok true ∧
    majorOf "" ≠ majorOf SCHEMA_VERSION := ⟨rfl, by decide⟩

/-- C4 (amended): a document with no `version` field is compatible; one
whose `version` is a falsy (empty) string is likewise treated as legacy
and compatible; for any non-empty version string the result is the string
equality of the major components — in particular true for "2.0" and
"2.1", false for "3.0" and "1.0" against schema "2.0". -/
theorem isCompatible_spec :
    (∀ fs, fs.lookup "version" = none → isCompatibleVersion (.obj fs) = .ok true) ∧
    (∀ fs s, fs.lookup "version" = some (.str s) → s ≠ "" →
      isCompatibleVersion (.obj fs) = .ok (majorOf s == majorOf SCHEMA_VERSION)) ∧
    isCompatibleVersion (.obj [("version", .str "2.0")]) = .ok true ∧
    isCompatibleVersion (.obj [("version", .str "2.1")]) = .ok true ∧
    isCompatibleVersion (.obj [("version", .str "3.0")]) = .ok false ∧
    isCompatibleVersion (.obj [("version", .str "1.0")]) = .ok false := by
  refine ⟨?_, ?_, rfl, rfl, rfl, rfl⟩
  · intro fs h
    simp [isCompatibleVersion, getField, h, truthy, ok_bind, pure_eq_ok]
  · intro fs s h hs
    have hb : (s == "") = false := beq_eq_false_iff_ne.mpr hs
    simp [isCompatibleVersion, getField, h, truthy, bne, hb, ok_bind, pure_eq_ok]

/-- C4 witness: a fresh minor version shares major "2" and is compatible. -/
theorem isCompatible_spec_inst :
    isCompatibleVersion (.obj [("version", .str "2.5")]) = .ok true :=
  isCompatible_spec.2.1 [("version", .str "2.5")] "2.5" rfl (by decide)

/-- C9: for every capture timestamp (`toISOString` output is never the
empty string), the factory document validates with zero errors, is
returned unchanged — so no version backfill happens — and already carries
the current schema version. -/
theorem factory_is_valid (ts : String) (h : ts ≠ "") :
    validateSetup (createEmptySetup ts) = (createEmptySetup ts, .ok ⟨true, []⟩) ∧
    getFieldT (createEmptySetup ts) "version" = .str SCHEMA_VERSION := by
  refine ⟨?_, rfl⟩
  have hts : (ts == "") = false := beq_eq_false_iff_ne.mpr h
  simp [validateSetup, runChecks, createEmptySetup, systemErrors, homebrewErrors,
    entriesErrs, checkEntries, optionalArrayError, globalPackagesErrors,
    gitConfigErrors, foldME, managers, getField, getFieldT, truthy, isArr,
    isObjType, SCHEMA_VERSION, List.lookup, hts, bne, jsetField, ok_bind, pure_eq_ok]

/-- C9 witness at a concrete timestamp. -/
theorem factory_is_valid_inst :
    tsSample ≠ "" ∧
    validateSetup (createEmptySetup tsSample) = (createEmptySetup tsSample, .ok ⟨true, []⟩) :=
  ⟨by decide, (factory_is_valid tsSample (by decide)).1⟩

theorem added_removed_flip (x y : List (JVal × JVal)) : addedOf x y = removedOf y x := rfl

theorem diffApplications_inv {o n : JVal} {d : AppsDiff} (h : diffApplications o n = .ok d) :
    ∃ oa la ma na lb mb,
      getField o "applications" = .ok oa ∧ asArray oa = .ok la ∧
      buildAppMap la = .ok ma ∧
      getField n "applications" = .ok na ∧ asArray na = .ok lb ∧
      buildAppMap lb = .ok mb ∧
      d = ⟨addedOf ma mb, removedOf ma mb, updatedOf ma mb⟩ := by
  unfold diffApplications at h
  obtain ⟨oa, hoa, h⟩ := bind_ok_inv h
  obtain ⟨la, hla, h⟩ := bind_ok_inv h
  obtain ⟨ma, hma, h⟩ := bind_ok_inv h
  obtain ⟨na, hna, h⟩ := bind_ok_inv h
  obtain ⟨lb, hlb, h⟩ := bind_ok_inv h
  obtain ⟨mb, hmb, h⟩ := bind_ok_inv h
  injection h with h2
  exact ⟨oa, la, ma, na, lb, mb, hoa, hla, hma, hna, hlb, hmb, h2.symm⟩

theorem diffSetups_inv {o n : JVal} {d : DiffReport} (h : diffSetups o n = .ok d) :
    ∃ apps hb hb2,
      diffApplications o n = .ok apps ∧ diffHomebrew o n = .ok hb ∧
      diffGlobalPackages o n hb = .ok hb2 ∧ d = ⟨apps, hb2, gpInit⟩ := by
  unfold diffSetups at h
  obtain ⟨apps, happs, h⟩ := bind_ok_inv h
  obtain ⟨hb, hhb, h⟩ := bind_ok_inv h
  obtain ⟨hb2, hhb2, h⟩ := bind_ok_inv h
  injection h with h2
  exact ⟨apps, hb, hb2, happs, hhb, hhb2, h2.symm⟩

theorem diffApplications_err_oldMissing (ofs : List (String × JVal)) (n : JVal)
    (h : List.lookup "applications" ofs = none) :
    diffApplications (.obj ofs) n = .error () := by
  unfold diffApplications
  rw [getField_obj, h]
  simp [asArray, ok_bind, err_bind]

theorem diffApplications_err_newMissing (o : JVal) (nfs : List (String × JVal))
    (h : List.lookup "applications" nfs = none) :
    diffApplications o (.obj nfs) = .error () := by
  unfold diffApplications
  cases ho : getField o "applications" with
  | error e => cases e; rw [err_bind]
  | ok oa =>
    rw [ok_bind]
    cases ha : asArray oa with
    | error e => cases e; rw [err_bind]
    | ok la =>
      rw [ok_bind]
      cases hm : buildAppMap la with
      | error e => cases e; rw [err_bind]
      | ok ma =>
        rw [ok_bind, getField_obj, h]
        simp [asArray, ok_bind, err_bind]

theorem diffGlobalPackages_err_old (ofs : List (String × JVal)) (n hb : JVal)
    (h : List.lookup "globalPackages" ofs = none) :
    diffGlobalPackages (.obj ofs) n hb = .error () := by
  unfold diffGlobalPackages
  simp only [managers, foldME]
  rw [getField_obj, h]
  simp [getField, ok_bind, err_bind]

theorem diffGlobalPackages_err_new (o : JVal) (nfs : List (String × JVal)) (hb : JVal)
    (h : List.lookup "globalPackages" nfs = none) :
    diffGlobalPackages o (.obj nfs) hb = .error () := by
  unfold diffGlobalPackages
  simp only [managers, foldME]
  have hng : getField (.obj nfs) "globalPackages" = .ok .undefined := by
    rw [getField_obj, h]
    rfl
  cases hgo : getField o "globalPackages" with
  | error e => cases e; simp [hgo, err_bind]
  | ok og =>
    cases hop : getField og "npm" with
    | error e => cases e; simp [hgo, hop, ok_bind, err_bind]
    | ok op =>
      have hu : getField JVal.undefined "npm" = .error () := rfl
      simp only [hgo, ok_bind, hop, hng, hu, err_bind]

theorem diffSetups_err_of_apps {o n : JVal} (h : diffApplications o n = .error ()) :
    diffSetups o n = .error () := by
  unfold diffSetups
  rw [h, err_bind]

theorem diffSetups_err_of_gp {o n : JVal}
    (h : ∀ hb, diffGlobalPackages o n hb = .error ()) :
    diffSetups o n = .error () := by
  unfold diffSetups
  apply bind_err_all
  intro apps
  apply bind_err_all
  intro hb
  rw [h hb, err_bind]

/-- C1 (code bug): two cleanly-validating documents that differ in one npm
global package make `diffSetups` throw rather than report the difference —
`comparePackages` pushes into `diff.homebrew[manager]`, which is
`undefined` for the manager categories, so `diff.globalPackages` can
never receive it. -/
theorem globalPackages_diff_throws :
    (validateSetup gpDocOld).2 = .ok ⟨true, []⟩ ∧
    (validateSetup gpDocNew).2 = .ok ⟨true, []⟩ ∧
    diffSetups gpDocOld gpDocNew = .error () := ⟨rfl, rfl, rfl⟩

/-- C7: whenever both diff orders return a report, the added applications
of one order are exactly the removed applications of the other — as equal
lists, hence in particular as name sets — and vice versa. -/
theorem diff_apps_symmetry (A B : JVal) (d1 d2 : DiffReport)
    (h1 : diffSetups A B = .ok d1) (h2 : diffSetups B A = .ok d2) :
    d1.applications.added = d2.applications.removed ∧
    d1.applications.removed = d2.applications.added := by
  obtain ⟨apps1, hb1, hc1, ha1, _, _, hd1⟩ := diffSetups_inv h1
  obtain ⟨apps2, hb2, hc2, ha2, _, _, hd2⟩ := diffSetups_inv h2
  obtain ⟨oa1, la1, ma1, na1, lb1, mb1, goa1, gla1, gma1, gna1, glb1, gmb1, happ1⟩ :=
    diffApplications_inv ha1
  obtain ⟨oa2, la2, ma2, na2, lb2, mb2, goa2, gla2, gma2, gna2, glb2, gmb2, happ2⟩ :=
    diffApplications_inv ha2
  have e1 : oa2 = na1 := by
    have := goa2.symm.trans gna1
    injection this
  subst e1
  have e2 : la2 = lb1 := by
    have := gla2.symm.trans glb1
    injection this
  subst e2
  have e3 : ma2 = mb1 := by
    have := gma2.symm.trans gmb1
    injection this
  subst e3
  have e4 : na2 = oa1 := by
    have := gna2.symm.trans goa1
    injection this
  subst e4
  have e5 : lb2 = la1 := by
    have := glb2.symm.trans gla1
    injection this
  subst e5
  have e6 : mb2 = ma1 := by
    have := gmb2.symm.trans gma1
    injection this
  subst e6
  rw [hd1, hd2, happ1, happ2]
  exact ⟨rfl, rfl⟩

/-- C7 witness: both diff orders of a valid document against itself. -/
theorem diff_apps_symmetry_inst :
    diffSetups gpDocOld gpDocOld = .ok emptyReport ∧
    emptyReport.applications.added = emptyReport.applications.removed :=
  ⟨rfl, (diff_apps_symmetry gpDocOld gpDocOld emptyReport emptyReport rfl rfl).1⟩

/-- C8: a `diffSetups` call leaves both caller documents unchanged — the
source assigns only into the freshly created report, and the embedding
accordingly threads the report accumulator functionally while applying no
update to either document — and the report is the value the call returns. -/
theorem diff_mutates_nothing (o n : JVal) :
    (diffSetupsCall o n).1 = (o, n) ∧ (diffSetupsCall o n).2 = diffSetups o n :=
  ⟨rfl, rfl⟩

/-- C10: `diffSetups` unconditionally dereferences `applications` and
`globalPackages` on both documents, so a missing field on either side
makes it throw; yet the Validator accepts a document lacking both, so
passing validation does not establish the diff precondition. -/
theorem diff_needs_optional_fields :
    (∀ ofs (n : JVal), List.lookup "applications" ofs = none →
      diffSetups (.obj ofs) n = .error ()) ∧
    (∀ (o : JVal) nfs, List.lookup "applications" nfs = none →
      diffSetups o (.obj nfs) = .error ()) ∧
    (∀ ofs (n : JVal), List.lookup "globalPackages" ofs = none →
      diffSetups (.obj ofs) n = .error ()) ∧
    (∀ (o : JVal) nfs, List.lookup "globalPackages" nfs = none →
      diffSetups o (.obj nfs) = .error ()) ∧
    (validateSetup minimalDoc).2 = .ok ⟨true, []⟩ ∧
    diffSetups minimalDoc minimalDoc = .error () := by
  refine ⟨?_, ?_, ?_, ?_, rfl, rfl⟩
  · intro ofs n h
    exact diffSetups_err_of_apps (diffApplications_err_oldMissing ofs n h)
  · intro o nfs h
    exact diffSetups_err_of_apps (diffApplications_err_newMissing o nfs h)
  · intro ofs n h
    exact diffSetups_err_of_gp (fun hb => diffGlobalPackages_err_old ofs n hb h)
  · intro o nfs h
    exact diffSetups_err_of_gp (fun hb => diffGlobalPackages_err_new o nfs hb h)

/-- C10 witness: the empty document lacks `applications`, and diffing two
empty documents throws. -/
theorem diff_needs_optional_fields_inst :
    List.lookup "applications" ([] : List (String × JVal)) = none ∧
    diffSetups (.obj []) (.obj []) = .error () :=
  ⟨rfl, diff_needs_optional_fields.1 [] (.obj []) rfl⟩

theorem list_any_map2 {α β : Type} (g : α → β) (p : β → Bool) (xs : List α) :
    (xs.map g).any p = xs.any (fun a => p (g a)) := by
  induction xs with
  | nil => rfl
  | cons x rest ih => simp [ih]

theorem list_filter_map2 {α β : Type} (g : α → β) (p : β → Bool) (xs : List α) :
    (xs.map g).filter p = (xs.filter (fun a => p (g a))).map g := by
  induction xs with
  | nil => rfl
  | cons x rest ih => cases hx : p (g x) <;> simp [List.filter_cons, hx, ih]

theorem list_filterMap_map2 {α β γ : Type} (g : α → β) (h : β → Option γ) (xs : List α) :
    (xs.map g).filterMap h = xs.filterMap (fun a => h (g a)) := by
  induction xs with
  | nil => rfl
  | cons x rest ih => cases hx : h (g x) <;> simp [List.filterMap_cons, hx, ih]

theorem mapME_ok_of_each {β : Type} {f : JVal → Except Unit β} {g : JVal → β}
    {xs : List JVal} (h : ∀ a ∈ xs, f a = .ok (g a)) :
    mapME f xs = .ok (xs.map g) := by
  induction xs with
  | nil => rfl
  | cons x rest ih =>
    simp [mapME, h x (by simp), ok_bind,
      ih (fun a ha => h a (by simp [ha])), pure_eq_ok]

theorem str_name_nonnullish {a : JVal} {k s : String}
    (h : getFieldT a k = .str s) : a ≠ .null ∧ a ≠ .undefined := by
  cases a <;> simp_all [getFieldT]

theorem mapSet_append {m : List (JVal × JVal)} {k : JVal} (v : JVal)
    (h : ∀ p ∈ m, p.1 ≠ k) : mapSet m k v = m ++ [(k, v)] := by
  induction m with
  | nil => rfl
  | cons p rest ih =>
    have hp := h p (by simp)
    simp [mapSet, hp, ih (fun q hq => h q (by simp [hq]))]

theorem foldl_mapSet_of_nodup :
    ∀ (pairs acc : List (JVal × JVal)), ((acc ++ pairs).map Prod.fst).Nodup →
      pairs.foldl (fun m p => mapSet m p.1 p.2) acc = acc ++ pairs := by
  intro pairs
  induction pairs with
  | nil =>
    intro acc h
    simp
  | cons q rest ih =>
    intro acc h
    have hnd := h
    rw [List.map_append, List.nodup_append] at hnd
    have hq : ∀ p ∈ acc, p.1 ≠ q.1 := by
      intro p hp hcon
      have h1 : p.1 ∈ acc.map Prod.fst := List.mem_map_of_mem Prod.fst hp
      have h2 : p.1 ∈ (q :: rest).map Prod.fst := by
        rw [hcon]
        exact List.mem_map_of_mem Prod.fst (by simp)
      exact (List.disjoint_left.mp hnd.2.2 h1) h2
    rw [List.foldl_cons, mapSet_append q.2 hq]
    have h2 : (((acc ++ [q]) ++ rest).map Prod.fst).Nodup := by
      simpa [List.append_assoc] using h
    simpa [List.append_assoc] using ih (acc ++ [q]) h2

theorem buildAppMap_eq {xs : List JVal}
    (hs : ∀ a ∈ xs, ∃ s, getFieldT a "name" = .str s)
    (hnd : (xs.map (fun a => getFieldT a "name")).Nodup) :
    buildAppMap xs = .ok (xs.map (fun a => (getFieldT a "name", a))) := by
  unfold buildAppMap
  have hmap : mapME (fun a => do
      let nm ← getField a "name"
      pure (nm, a)) xs = .ok (xs.map (fun a => (getFieldT a "name", a))) := by
    apply mapME_ok_of_each
    intro a ha
    obtain ⟨s, hsa⟩ := hs a ha
    obtain ⟨h1, h2⟩ := str_name_nonnullish hsa
    simp [getField_of_nonnullish h1 h2, ok_bind, pure_eq_ok]
  rw [hmap, ok_bind]
  rw [foldl_mapSet_of_nodup (xs.map (fun a => (getFieldT a "name", a))) []
    (by simpa [List.map_map, Function.comp] using hnd)]
  simp [pure_eq_ok]

theorem hasKey_mapped (xs : List JVal) (k : JVal) :
    hasKey (xs.map (fun a => (getFieldT a "name", a))) k =
      xs.any (fun b => decide (getFieldT b "name" = k)) := by
  simp [hasKey, list_any_map2]

theorem addedOf_mapped (xs : List JVal) : ∀ ys : List JVal,
    addedOf (xs.map (fun a => (getFieldT a "name", a)))
        (ys.map (fun a => (getFieldT a "name", a))) =
      ys.filter (fun a =>
        !(xs.any (fun b => decide (getFieldT b "name" = getFieldT a "name")))) := by
  intro ys
  induction ys with
  | nil => rfl
  | cons y rest ih =>
    simp only [addedOf, List.map_cons, List.filter_cons] at ih ⊢
    rw [hasKey_mapped]
    cases hk : xs.any (fun b => decide (getFieldT b "name" = getFieldT y "name")) <;>
      simp [hk, ih]

theorem removedOf_mapped (xs ys : List JVal) :
    removedOf (xs.map (fun a => (getFieldT a "name", a)))
        (ys.map (fun a => (getFieldT a "name", a))) =
      xs.filter (fun b =>
        !(ys.any (fun a => decide (getFieldT a "name" = getFieldT b "name")))) := by
  rw [show removedOf (xs.map (fun a => (getFieldT a "name", a)))
      (ys.map (fun a => (getFieldT a "name", a))) =
    addedOf (ys.map (fun a => (getFieldT a "name", a)))
      (xs.map (fun a => (getFieldT a "name", a))) from rfl]
  exact addedOf_mapped ys xs

theorem mapGet_mapped (xs : List JVal) (k : JVal) :
    mapGet (xs.map (fun a => (getFieldT a "name", a))) k =
      xs.find? (fun b => decide (getFieldT b "name" = k)) := by
  induction xs with
  | nil => rfl
  | cons x rest ih =>
    cases hd : decide (getFieldT x "name" = k) with
    | true => simp [mapGet, List.find?, hd]
    | false =>
      simp only [mapGet, List.map_cons, List.find?, hd]
      simpa [mapGet] using ih

theorem updatedOf_mapped (xs : List JVal) : ∀ ys : List JVal,
    updatedOf (xs.map (fun a => (getFieldT a "name", a)))
        (ys.map (fun a => (getFieldT a "name", a))) =
      ys.filterMap (fun a =>
        match xs.find? (fun b => decide (getFieldT b "name" = getFieldT a "name")) with
        | some b =>
          if getFieldT b "version" = getFieldT a "version" then none
          else some ⟨getFieldT a "name", getFieldT b "version", getFieldT a "version"⟩
        | none => none) := by
  intro ys
  induction ys with
  | nil => rfl
  | cons y rest ih =>
    simp only [updatedOf, List.map_cons, List.filterMap_cons] at ih ⊢
    rw [mapGet_mapped]
    cases hf : xs.find? (fun b => decide (getFieldT b "name" = getFieldT y "name")) with
    | none => simpa [hf] using ih
    | some b =>
      cases hv : decide (getFieldT b "version" = getFieldT y "version") <;>
        simp_all [hf]

/-- C6 (amended): whenever `diffSetups` returns a report (it can throw on
validated inputs instead — see the counterexample — when a global-package
difference hits the `diff.homebrew[manager]` push), and both documents
carry applications arrays of entries with string names, no name repeated
on a side, then the applications report is exact: added = entries of new
whose name is absent from old (in new's order), removed = entries of old
whose name is absent from new (in old's order), updated = one
`{name, oldVersion, newVersion}` entry per name present on both sides
whose `version` values are not strictly equal; a name on both sides with
equal versions appears nowhere in the applications report. -/
theorem diff_applications_exact (o n : JVal) (oldArr newArr : List JVal) (d : DiffReport)
    (hoa : getField o "applications" = .ok (.arr oldArr))
    (hna : getField n "applications" = .ok (.arr newArr))
    (hos : ∀ a ∈ oldArr, ∃ s, getFieldT a "name" = .str s)
    (hns : ∀ a ∈ newArr, ∃ s, getFieldT a "name" = .str s)
    (hond : (oldArr.map (fun a => getFieldT a "name")).Nodup)
    (hnnd : (newArr.map (fun a => getFieldT a "name")).Nodup)
    (hok : diffSetups o n = .ok d) :
    d.applications.added = newArr.filter (fun a =>
      !(oldArr.any (fun b => decide (getFieldT b "name" = getFieldT a "name")))) ∧
    d.applications.removed = oldArr.filter (fun b =>
      !(newArr.any (fun a => decide (getFieldT a "name" = getFieldT b "name")))) ∧
    d.applications.updated = newArr.filterMap (fun a =>
      match oldArr.find? (fun b => decide (getFieldT b "name" = getFieldT a "name")) with
      | some b =>
        if getFieldT b "version" = getFieldT a "version" then none
        else some ⟨getFieldT a "name", getFieldT b "version", getFieldT a "version"⟩
      | none => none) ∧
    (∀ a ∈ newArr, ∀ b ∈ oldArr, getFieldT a "name" = getFieldT b "name" →
      getFieldT a "version" = getFieldT b "version" →
      (∀ x ∈ d.applications.added, getFieldT x "name" ≠ getFieldT a "name") ∧
      (∀ x ∈ d.applications.removed, getFieldT x "name" ≠ getFieldT a "name") ∧
      (∀ u ∈ d.applications.updated, u.name ≠ getFieldT a "name")) := by
  obtain ⟨apps, hbv, hb2v, happs, _, _, hd⟩ := diffSetups_inv hok
  obtain ⟨oa, la, ma, na, lb, mb, goa, gla, gma, gna, glb, gmb, happ⟩ :=
    diffApplications_inv happs
  have e1 : oa = .arr oldArr := by
    have h2 := goa.symm.trans hoa
    injection h2
  subst e1
  have e2 : la = oldArr := by
    have h2 : (Except.ok oldArr : Except Unit (List JVal)) = .ok la :=
      (show asArray (.arr oldArr) = Except.ok oldArr from rfl).symm.trans gla
    injection h2 with h3
    exact h3.symm
  rw [e2] at gma
  have e3 : ma = oldArr.map (fun a => (getFieldT a "name", a)) := by
    have h2 := (buildAppMap_eq hos hond).symm.trans gma
    injection h2 with h3
    exact h3.symm
  subst e3
  have e4 : na = .arr newArr := by
    have h2 := gna.symm.trans hna
    injection h2
  subst e4
  have e5 : lb = newArr := by
    have h2 : (Except.ok newArr : Except Unit (List JVal)) = .ok lb :=
      (show asArray (.arr newArr) = Except.ok newArr from rfl).symm.trans glb
    injection h2 with h3
    exact h3.symm
  rw [e5] at gmb
  have e6 : mb = newArr.map (fun a => (getFieldT a "name", a)) := by
    have h2 := (buildAppMap_eq hns hnnd).symm.trans gmb
    injection h2 with h3
    exact h3.symm
  subst e6
  rw [addedOf_mapped, removedOf_mapped, updatedOf_mapped] at happ
  have hdapps : d.applications = apps := by rw [hd]
  rw [hdapps, happ]
  refine ⟨rfl, rfl, rfl, ?_⟩
  intro a ha b hb hnm hv
  have hinjN := List.inj_on_of_nodup_map hnnd
  have hinjO := List.inj_on_of_nodup_map hond
  refine ⟨?_, ?_, ?_⟩
  · intro x hx hxn
    have hx2 : x ∈ newArr.filter (fun a2 =>
        !(oldArr.any (fun b2 => decide (getFieldT b2 "name" = getFieldT a2 "name")))) := hx
    rw [List.mem_filter] at hx2
    have hfalse : oldArr.any
        (fun b2 => decide (getFieldT b2 "name" = getFieldT x "name")) = false := by
      simpa using hx2.2
    have htrue : oldArr.any
        (fun b2 => decide (getFieldT b2 "name" = getFieldT x "name")) = true :=
      List.any_eq_true.mpr ⟨b, hb, decide_eq_true (hnm.symm.trans hxn.symm)⟩
    simp [hfalse] at htrue
  · intro x hx hxn
    have hx2 : x ∈ oldArr.filter (fun b2 =>
        !(newArr.any (fun a2 => decide (getFieldT a2 "name" = getFieldT b2 "name")))) := hx
    rw [List.mem_filter] at hx2
    have hfalse : newArr.any
        (fun a2 => decide (getFieldT a2 "name" = getFieldT x "name")) = false := by
      simpa using hx2.2
    have htrue : newArr.any
        (fun a2 => decide (getFieldT a2 "name" = getFieldT x "name")) = true :=
      List.any_eq_true.mpr ⟨a, ha, decide_eq_true hxn.symm⟩
    simp [hfalse] at htrue
  · intro u hu huname
    have hu2 : u ∈ newArr.filterMap (fun a2 =>
        match oldArr.find? (fun b2 => decide (getFieldT b2 "name" = getFieldT a2 "name")) with
        | some b2 =>
          if getFieldT b2 "version" = getFieldT a2 "version" then none
          else some ⟨getFieldT a2 "name", getFieldT b2 "version", getFieldT a2 "version"⟩
        | none => none) := hu
    rw [List.mem_filterMap] at hu2
    obtain ⟨a2, ha2, hfa⟩ := hu2
    cases hf : oldArr.find? (fun b2 => decide (getFieldT b2 "name" = getFieldT a2 "name")) with
    | none =>
      rw [hf] at hfa
      exact Option.noConfusion hfa
    | some b0 =>
      rw [hf] at hfa
      have hfa2 : (if getFieldT b0 "version" = getFieldT a2 "version" then none
          else some (⟨getFieldT a2 "name", getFieldT b0 "version",
            getFieldT a2 "version"⟩ : UpdEntry)) = some u := hfa
      by_cases hveq : getFieldT b0 "version" = getFieldT a2 "version"
      · rw [if_pos hveq] at hfa2
        exact Option.noConfusion hfa2
      · rw [if_neg hveq] at hfa2
        injection hfa2 with hfu
        have hun : u.name = getFieldT a2 "name" := by rw [← hfu]
        have ha2a : getFieldT a2 "name" = getFieldT a "name" := by
          rw [← hun, huname]
        have : a2 = a := hinjN ha2 ha ha2a
        subst this
        have hb0mem := List.mem_of_find?_eq_some hf
        have hb0p := List.find?_some hf
        have hb0name : getFieldT b0 "name" = getFieldT a2 "name" := by simpa using hb0p
        have : b0 = b := hinjO hb0mem hb (hb0name.trans hnm)
        subst this
        exact hveq hv.symm

/-- C6 witness: the Xcode version-update pair from the specification. -/
theorem diff_applications_exact_inst :
    xcodeReport.applications.updated =
      [⟨.str "Xcode.app", .str "14.0", .str "15.0"⟩] :=
  (diff_applications_exact appsDocOld appsDocNew
    [.obj [("name", .str "Xcode.app"), ("version", .str "14.0")]]
    [.obj [("name", .str "Xcode.app"), ("version", .str "15.0")]]
    xcodeReport rfl rfl
    (by intro a ha; simp only [List.mem_singleton] at ha; subst ha; exact ⟨"Xcode.app", rfl⟩)
    (by intro a ha; simp only [List.mem_singleton] at ha; subst ha; exact ⟨"Xcode.app", rfl⟩)
    (by decide) (by decide) rfl).2.2.1

/-- C6 counterexample: two validated documents with name-keyed
applications on which `diffSetups` throws (their dart global-package
lists differ), reporting nothing at all. -/
theorem diff_applications_can_throw :
    (validateSetup appsDocOld).2 = .ok ⟨true, []⟩ ∧
    (validateSetup mixedDocNew).2 = .ok ⟨true, []⟩ ∧
    diffSetups appsDocOld mixedDocNew = .error () := ⟨rfl, rfl, rfl⟩

end MacBlueprint
